import Mathlib

/-!
Shallow embedding of the usa-spending fetch pipeline.

Source files embedded here:
- `src/services/normalizer.ts` (`normalizeAward`, `normalizeAwards`)
- `src/services/transaction-normalizer.ts` (`normalizeTransaction`)
- `src/services/complete-fetcher.ts` (new-transaction filter, award
  deduplication, missing-id detection, join analysis)
- `src/api/client.ts` (`fetchAllAwards` / `fetchAllTransactions` pagination
  loop, `checkForTruncation`, `fetchAwardsByIds` batch loop)

Modelling conventions:
- A raw API record is a string-keyed JS dictionary whose fields may be
  absent (`undefined`) or `null`; both are modelled as `none`.
- JS string comparison (`<`, `>`) is modelled by the lexicographic order on
  Lean `String`; both agree on all strings of basic-plane characters
  (all dates and identifiers in this domain are ASCII).
- JS numbers that hold monetary amounts are modelled as `ℚ`.
- The wall-clock timestamp `new Date().toISOString()` is passed in
  explicitly as a `now : String` parameter.
-/

namespace UsaSpending

/-- Truthiness of a JS string value: `undefined` / `null` (both modelled as
`none`) and the empty string are falsy; every other string is truthy. -/
def jsTruthy : Option String → Bool
  | none => false
  | some s => !(s == "")

/-- JS `a || b` where both operands are possibly-absent strings: returns `a`
when it is truthy, otherwise returns `b` unchanged. -/
def jsOr (a b : Option String) : Option String :=
  if jsTruthy a then a else b

/-- JS `a || d` where `a` is a possibly-absent string and `d` is a string
default (e.g. `''` or `'Unknown'`). -/
def jsOrD (a : Option String) (d : String) : String :=
  match a with
  | none => d
  | some s => if s = "" then d else s

/-- JS `a || d` where `a` is a (present) string: the empty string is falsy. -/
def jsOrS (a d : String) : String :=
  if a = "" then d else a

/-- JS `a || d` for a possibly-absent number: `undefined`, `null` and `0` are
falsy. -/
def jsOrNum (a : Option ℚ) (d : ℚ) : ℚ :=
  match a with
  | none => d
  | some x => if x = 0 then d else x

/-- JS template-string interpolation of a possibly-absent string value
(an absent value prints as `undefined`). -/
def jsTemplate (a : Option String) : String :=
  a.getD "undefined"

/-! ## Raw API record shapes (`src/types/api.ts`)

Only the fields actually read by the embedded functions are carried; every
field is optional because the API populates fields inconsistently and the
normalizers must tolerate absence. -/

/-- Raw award search result (`AwardResult` in `src/types/api.ts`), restricted
to the fields `normalizeAward` reads. -/
structure AwardResult where
  awardID : Option String
  internal_id : Option String
  generated_internal_id : Option String
  contractAwardType : Option String
  awardType : Option String
  awardAmount : Option ℚ
  awardDate : Option String
  startDate : Option String
  endDate : Option String
  lastModifiedDate : Option String
  baseObligationDate : Option String
  awardingAgency : Option String
  awardingSubAgency : Option String
  fundingAgency : Option String
  recipientName : Option String
  recipientUEI : Option String
  description : Option String
  naics_code : Option String
  product_or_service_code : Option String
  placeOfPerformanceStateCode : Option String
  deriving DecidableEq

/-- Raw transaction search result (`TransactionResult` in
`src/types/api.ts`), restricted to the fields `normalizeTransaction`
reads. `mod` is the `'Mod'` field (the modification number). -/
structure TransactionResult where
  internal_id : Option String
  generated_internal_id : Option String
  awardID : Option String
  actionDate : Option String
  actionType : Option String
  mod : Option String
  transactionAmount : Option ℚ
  awardType : Option String
  transactionDescription : Option String
  issuedDate : Option String
  lastDateToOrder : Option String
  awardingAgency : Option String
  awardingSubAgency : Option String
  fundingAgency : Option String
  recipientName : Option String
  recipientUEI : Option String
  naics_code : Option String
  product_or_service_code : Option String
  pop_state_code : Option String
  deriving DecidableEq

/-! ## Internal record shapes (`src/types/award.ts`, `src/types/transaction.ts`)

`award_id` is declared `string` in the TypeScript types, but
`normalizeAward` / `normalizeTransaction` leave it `undefined` when every
identifier field of the raw record is absent, so it is modelled as
`Option String` (`none` = `undefined`). -/

/-- Normalized award model (`Award` in `src/types/award.ts`). -/
structure Award where
  award_id : Option String
  award_type : String
  award_amount : ℚ
  award_date : String
  start_date : Option String
  end_date : Option String
  last_modified_date : Option String
  base_obligation_date : Option String
  awarding_agency : String
  awarding_sub_agency : Option String
  funding_agency : Option String
  recipient_name : String
  recipient_uei : Option String
  recipient_business_categories : List String
  award_description : String
  naics_code : Option String
  psc_code : Option String
  place_of_performance_state : Option String
  ingested_at : String
  source_url : String
  deriving DecidableEq

/-- Normalized transaction model (`Transaction` in
`src/types/transaction.ts`, plus the `generated_internal_id` field the
normalizer emits). -/
structure Transaction where
  transaction_id : String
  award_id : Option String
  generated_internal_id : Option String
  action_date : String
  action_type : String
  action_type_description : String
  modification_number : Option String
  federal_action_obligation : ℚ
  total_dollars_obligated : ℚ
  award_type : String
  award_description : String
  period_of_performance_start_date : Option String
  period_of_performance_current_end_date : Option String
  awarding_agency_name : String
  awarding_sub_agency_name : Option String
  funding_agency_name : Option String
  recipient_name : String
  recipient_uei : Option String
  naics_code : Option String
  product_or_service_code : Option String
  place_of_performance_state : Option String
  ingested_at : String
  source_url : String
  deriving DecidableEq

/-! ## Record normalizers -/

/-- `normalizeAward` (`src/services/normalizer.ts`, lines 11-51). -/
def normalizeAward (now : String) (apiAward : AwardResult) : Award :=
  let sourceUrl :=
    if jsTruthy apiAward.internal_id then
      "https://www.usaspending.gov/award/" ++ jsTemplate apiAward.internal_id
    else
      "https://www.usaspending.gov/search/?hash=" ++ jsTemplate apiAward.awardID
  let businessCategories : List String := []
  { award_id := jsOr apiAward.awardID
      (jsOr apiAward.internal_id apiAward.generated_internal_id)
    award_type := jsOrD apiAward.contractAwardType
      (jsOrD apiAward.awardType "Unknown")
    award_amount := jsOrNum apiAward.awardAmount 0
    award_date := jsOrD apiAward.awardDate ""
    start_date := jsOr apiAward.startDate none
    end_date := jsOr apiAward.endDate none
    last_modified_date := jsOr apiAward.lastModifiedDate none
    base_obligation_date := jsOr apiAward.baseObligationDate none
    awarding_agency := jsOrD apiAward.awardingAgency ""
    awarding_sub_agency := jsOr apiAward.awardingSubAgency none
    funding_agency := jsOr apiAward.fundingAgency none
    recipient_name := jsOrD apiAward.recipientName ""
    recipient_uei := jsOr apiAward.recipientUEI none
    recipient_business_categories := businessCategories
    award_description := jsOrD apiAward.description ""
    naics_code := jsOr apiAward.naics_code none
    psc_code := jsOr apiAward.product_or_service_code none
    place_of_performance_state := jsOr apiAward.placeOfPerformanceStateCode none
    ingested_at := now
    source_url := sourceUrl }

/-- `normalizeAwards` (`src/services/normalizer.ts`, lines 56-58). -/
def normalizeAwards (now : String) (apiAwards : List AwardResult) : List Award :=
  apiAwards.map (normalizeAward now)

/-- The fixed action-type code table of `normalizeTransaction`
(`src/services/transaction-normalizer.ts`, lines 43-49). -/
def actionTypeMap (c : String) : Option String :=
  if c = "A" then some "NEW"
  else if c = "B" then some "CONTINUATION"
  else if c = "C" then some "REVISION"
  else if c = "D" then some "FUNDING_ADJUSTMENT"
  else if c = "E" then some "CORRECTION"
  else none

/-- Split a character list at every occurrence of the separator, keeping
empty segments, exactly as the JS `String.prototype.split` does with a
single-character separator. -/
def splitChar (sep : Char) : List Char → List (List Char)
  | [] => [[]]
  | c :: cs =>
    let rest := splitChar sep cs
    if c = sep then [] :: rest
    else (c :: rest.headD []) :: rest.tail

/-- JS `s.split(sep)` for a single-character separator. -/
def jsSplit (s : String) (sep : Char) : List String :=
  (splitChar sep s.toList).map List.asString

/-- The award-identifier recovery step of `normalizeTransaction`
(`src/services/transaction-normalizer.ts`, lines 19-38): when the raw
`'Award ID'` is a truthy all-digit string (the `/^\d+$/` test, modelled
character-wise over the string's characters) of length at most 4, try to
read the real contract identifier out of `generated_internal_id`
(delimiter `'_'`, positional index 4), falling back to the short identifier
otherwise. -/
def extractAwardId (awardID genId : Option String) : Option String :=
  match awardID with
  | none => none
  | some s =>
    if s ≠ "" ∧ s.length ≤ 4 ∧ s.toList.all Char.isDigit then
      match genId with
      | none => some s
      | some g =>
        if g ≠ "" then
          let parts := jsSplit g '_'
          if 6 ≤ parts.length then
            let extractedId := parts.getD 4 ""
            if extractedId ≠ "" ∧ 4 < extractedId.length then some extractedId
            else some s
          else some s
        else some s
    else some s

/-- `normalizeTransaction` (`src/services/transaction-normalizer.ts`,
lines 13-97). -/
def normalizeTransaction (now : String) (apiTransaction : TransactionResult) :
    Transaction :=
  let transactionId := jsOrD apiTransaction.internal_id
    (jsOrD apiTransaction.generated_internal_id
      (jsTemplate apiTransaction.awardID ++ "_" ++
        jsTemplate apiTransaction.actionDate))
  let awardId := extractAwardId apiTransaction.awardID
    apiTransaction.generated_internal_id
  let sourceUrl := "https://www.usaspending.gov/award/" ++ jsTemplate awardId
  let actionType := jsOrD apiTransaction.actionType ""
  let actionTypeDescription := jsOrD (actionTypeMap actionType)
    (jsOrS actionType "Unknown")
  { transaction_id := transactionId
    award_id := awardId
    generated_internal_id := jsOr apiTransaction.generated_internal_id none
    action_date := jsOrD apiTransaction.actionDate ""
    action_type := actionType
    action_type_description := actionTypeDescription
    modification_number := apiTransaction.mod
    federal_action_obligation := jsOrNum apiTransaction.transactionAmount 0
    total_dollars_obligated := jsOrNum apiTransaction.transactionAmount 0
    award_type := jsOrD apiTransaction.awardType "Unknown"
    award_description := jsOrD apiTransaction.transactionDescription ""
    period_of_performance_start_date := apiTransaction.issuedDate
    period_of_performance_current_end_date := apiTransaction.lastDateToOrder
    awarding_agency_name := jsOrD apiTransaction.awardingAgency ""
    awarding_sub_agency_name := apiTransaction.awardingSubAgency
    funding_agency_name := apiTransaction.fundingAgency
    recipient_name := jsOrD apiTransaction.recipientName ""
    recipient_uei := apiTransaction.recipientUEI
    naics_code := apiTransaction.naics_code
    product_or_service_code := apiTransaction.product_or_service_code
    place_of_performance_state := apiTransaction.pop_state_code
    ingested_at := now
    source_url := sourceUrl }

/-! ## Stage 1 new-transaction filter (`complete-fetcher.ts`, lines 97-99) -/

/-- The Stage 1 new-event filter of `CompleteFetcher.fetchTransactionsStage`:
`tx.modification_number === '0' || tx.action_type_description === 'NEW'`. -/
def filterNewTransactions (txs : List Transaction) : List Transaction :=
  txs.filter (fun tx =>
    tx.modification_number == some "0" || tx.action_type_description == "NEW")

/-! ## Stage 2 award deduplication (`complete-fetcher.ts`, lines 146-161)

The JS `Map<string, Award>` is modelled as an insertion-ordered association
list: `set` on an existing key replaces the value in place, `get` returns the
first (unique) entry for the key. -/

/-- Association-list model of `Map.get`. -/
def mapGet (m : List (Option String × Award)) (k : Option String) :
    Option Award :=
  match m with
  | [] => none
  | (k1, v) :: rest => if k1 = k then some v else mapGet rest k

/-- Association-list model of `Map.set` (replace in place, preserving
insertion order, as a JS `Map` does). -/
def mapSet (m : List (Option String × Award)) (k : Option String) (v : Award) :
    List (Option String × Award) :=
  match m with
  | [] => [(k, v)]
  | (k1, v1) :: rest =>
    if k1 = k then (k, v) :: rest else (k1, v1) :: mapSet rest k v

/-- The date key used by the deduplication comparison:
`award.last_modified_date || ''`. -/
def dateKey (a : Award) : String :=
  a.last_modified_date.getD ""

/-- One iteration of the `allAwards.forEach` deduplication loop
(`complete-fetcher.ts`, lines 147-159): insert when the key is new, replace
when the incoming record has a strictly greater date key. -/
def dedupeStep (m : List (Option String × Award)) (award : Award) :
    List (Option String × Award) :=
  match mapGet m award.award_id with
  | none => mapSet m award.award_id award
  | some existing =>
    if dateKey existing < dateKey award then mapSet m award.award_id award
    else m

/-- The Stage 2 deduplication of `CompleteFetcher.fetchAwardsByIdStage`
(`complete-fetcher.ts`, lines 146-161): fold the award list into the map and
read back `Array.from(awardMap.values())`. -/
def dedupeAwards (allAwards : List Award) : List Award :=
  (allAwards.foldl dedupeStep []).map Prod.snd

/-! ## Stage 2 missing-id detection and stats (`complete-fetcher.ts`) -/

/-- The Stage 2 body of `CompleteFetcher.fetchAwardsByIdStage`
(`complete-fetcher.ts`, lines 143-180) after the client call: deduplicate the
fetched awards and compute the missing identifiers
`awardIds.filter(id => !fetchedIds.has(id))`. The fetched award list obtained
from `client.fetchAwardsByIds` is passed in as `allAwards`. -/
def fetchAwardsByIdStage (allAwards : List Award)
    (awardIds : List (Option String)) :
    List Award × List (Option String) :=
  let awards := dedupeAwards allAwards
  let fetchedIds := awards.map Award.award_id
  let missingIds := awardIds.filter (fun id => !(fetchedIds.contains id))
  (awards, missingIds)

/-- The `awardsMissing` stat of `CompleteFetcher.fetchComplete`
(`complete-fetcher.ts`, line 57):
`txResult.uniqueAwardIds.length - awResult.awards.length` (a JS number, so a
possibly negative integer). -/
def awardsMissingCount (awardIds : List (Option String))
    (awards : List Award) : ℤ :=
  (awardIds.length : ℤ) - awards.length

/-! ## Join analysis (`complete-fetcher.ts`, lines 186-205) -/

/-- Result record of `CompleteFetcher.analyzeJoin`. -/
structure JoinAnalysis where
  matched : ℕ
  unmatched : ℕ
  matchRate : ℚ
  deriving DecidableEq

/-- `CompleteFetcher.analyzeJoin` (`complete-fetcher.ts`, lines 186-205):
count transactions whose `award_id` is among the award identifiers, and
compute `matched / transactions.length * 100`, guarded to `0` for an empty
transaction list. -/
def analyzeJoin (transactions : List Transaction) (awards : List Award) :
    JoinAnalysis :=
  let awardIds := awards.map Award.award_id
  let matched := transactions.countP (fun tx => awardIds.contains tx.award_id)
  let unmatched :=
    transactions.countP (fun tx => !(awardIds.contains tx.award_id))
  let matchRate : ℚ :=
    if 0 < transactions.length then
      ((matched : ℚ) / (transactions.length : ℚ)) * 100
    else 0
  { matched := matched, unmatched := unmatched, matchRate := matchRate }

/-! ## Paginated fetch engine (`src/api/client.ts`)

`fetchAllAwards` (lines 76-112) and `fetchAllTransactions` (lines 155-191)
run the same loop over their respective page sources; the loop is modelled
once, generically in the page-result type. The external API is an oracle
`source : ℕ → PageResponse α` giving the response for each page number. The
JS `while` loop does not terminate on a source that never signals an end and
never lets the total reach `max_records`, so the loop is run on explicit
fuel and yields `none` when the fuel is exhausted before the loop exits. -/

/-- One page of an API response: the `results` array and
`page_metadata.hasNext`. -/
structure PageResponse (α : Type) where
  results : List α
  hasNext : Bool
  deriving DecidableEq

/-- The mutable state of the `fetchAllAwards` / `fetchAllTransactions` loop:
`responses`, `currentPage`, `hasMore`, `totalFetched`, `stoppedByHasNext`. -/
structure FetchState (α : Type) where
  responses : List (PageResponse α)
  currentPage : ℕ
  hasMore : Bool
  totalFetched : ℕ
  stoppedByHasNext : Bool
  deriving DecidableEq

/-- The initial loop state of `fetchAllAwards` / `fetchAllTransactions`. -/
def initialFetchState (α : Type) : FetchState α :=
  { responses := [], currentPage := 1, hasMore := true, totalFetched := 0,
    stoppedByHasNext := false }

/-- The `while (hasMore && totalFetched < max_records)` loop of
`fetchAllAwards` / `fetchAllTransactions` (`client.ts`, lines 83-106 and
162-185), including the in-loop safety break once `totalFetched` reaches
`max_records`. -/
def fetchPagesLoop (source : ℕ → PageResponse α) (maxRecords : ℕ) :
    ℕ → FetchState α → Option (FetchState α)
  | 0, st =>
    if st.hasMore ∧ st.totalFetched < maxRecords then none else some st
  | fuel + 1, st =>
    if st.hasMore ∧ st.totalFetched < maxRecords then
      let response := source st.currentPage
      let totalFetched1 := st.totalFetched + response.results.length
      let hasMore1 := response.hasNext
      let stoppedByHasNext1 := if hasMore1 then st.stoppedByHasNext else true
      let st1 : FetchState α :=
        { responses := st.responses ++ [response]
          currentPage := st.currentPage + 1
          hasMore := hasMore1
          totalFetched := totalFetched1
          stoppedByHasNext := stoppedByHasNext1 }
      if maxRecords ≤ totalFetched1 then some st1
      else fetchPagesLoop source maxRecords fuel st1
    else some st

/-- A full run of the pagination loop from the initial state. -/
def fetchAllPages (source : ℕ → PageResponse α) (maxRecords fuel : ℕ) :
    Option (FetchState α) :=
  fetchPagesLoop source maxRecords fuel (initialFetchState α)

/-- `USASpendingClient.checkForTruncation` (`client.ts`, lines 248-267):
the known API limit is 10000 and the warning fires exactly when the total
equals the limit, the page count equals `Math.ceil(10000 / page_size)`, and
the loop stopped because the source signalled `hasNext = false`. -/
def checkForTruncation (totalFetched pagesFetched : ℕ)
    (stoppedByHasNext : Bool) (pageSize : ℕ) : Bool :=
  let KNOWN_API_LIMIT := 10000
  let EXPECTED_PAGES_AT_LIMIT := (KNOWN_API_LIMIT + pageSize - 1) / pageSize
  decide (totalFetched = KNOWN_API_LIMIT) &&
    (decide (pagesFetched = EXPECTED_PAGES_AT_LIMIT) && stoppedByHasNext)

/-- The truncation flag computed for a finished pagination run
(`client.ts`, lines 109 and 188). -/
def truncationFlag (pageSize : ℕ) (st : FetchState α) : Bool :=
  checkForTruncation st.totalFetched st.responses.length st.stoppedByHasNext
    pageSize

/-! ## Batch ID fetcher (`client.ts`, lines 201-242)

The per-batch call `this.fetchAllAwards(filters)` followed by
`responses.flatMap(r => r.results)` is abstracted as an oracle
`source : List String → Except String (List AwardResult)` from the batch of
identifiers to either the flattened results or a transport error (which the
loop catches and logs, skipping the batch). -/

/-- The batches visited by the `for (let i = 0; i < awardIds.length;
i += batchSize)` loop: consecutive slices `awardIds.slice(i, i + batchSize)`.
The source loop does not terminate for `batchSize = 0`; the model returns
`[]` there (no claim concerns a zero batch size). -/
def batchSlices (awardIds : List String) (batchSize : ℕ) :
    List (List String) :=
  if h : batchSize = 0 ∨ awardIds = [] then []
  else
    awardIds.take batchSize :: batchSlices (awardIds.drop batchSize) batchSize
termination_by awardIds.length
decreasing_by
  rw [not_or] at h
  simp only [List.length_drop]
  have h1 : awardIds.length ≠ 0 := fun h0 => h.2 (List.eq_nil_of_length_eq_zero h0)
  omega

/-- Results kept from one batch: the fetched list on success, nothing when
the batch's transport error was caught (`client.ts`, lines 227-236). -/
def batchResultsOrEmpty (r : Except String (List AwardResult)) :
    List AwardResult :=
  match r with
  | .ok batchResults => batchResults
  | .error _ => []

/-- The accumulation loop of `USASpendingClient.fetchAwardsByIds`
(`client.ts`, lines 207-237): slice the next batch, query the source, append
its results on success, skip the batch on a caught error, and continue with
the next batch. Runs on the index `i` exactly as the JS `for` loop does.
The source loop does not terminate for `batchSize = 0`; the model exits
immediately there. -/
def fetchAwardsByIdsLoop (source : List String → Except String (List AwardResult))
    (awardIds : List String) (batchSize : ℕ) (i : ℕ)
    (allAwards : List AwardResult) : List AwardResult :=
  if hz : batchSize = 0 then allAwards
  else if h : i < awardIds.length then
    let batch := (awardIds.drop i).take batchSize
    let allAwards1 :=
      match source batch with
      | .ok batchResults => allAwards ++ batchResults
      | .error _ => allAwards
    fetchAwardsByIdsLoop source awardIds batchSize (i + batchSize) allAwards1
  else allAwards
termination_by awardIds.length - i
decreasing_by omega

/-- `USASpendingClient.fetchAwardsByIds` (`client.ts`, lines 201-242):
run the batch loop from index 0 and normalize the accumulated raw awards. -/
def fetchAwardsByIds (now : String)
    (source : List String → Except String (List AwardResult))
    (awardIds : List String) (batchSize : ℕ) : List Award :=
  normalizeAwards now (fetchAwardsByIdsLoop source awardIds batchSize 0 [])

/-- The union of per-batch raw results, before any deduplication: each batch
contributes its fetched results when it succeeds and nothing when it fails. -/
def rawBatchUnion (source : List String → Except String (List AwardResult))
    (awardIds : List String) (batchSize : ℕ) : List AwardResult :=
  (batchSlices awardIds batchSize).flatMap
    (fun batch => batchResultsOrEmpty (source batch))

/-! ## Association-list lemmas for the award map -/

/-! ## Association-list lemmas for the award map -/

theorem mapGet_mapSet (m : List (Option String × Award)) (k k1 : Option String)
    (v : Award) :
    mapGet (mapSet m k v) k1 = if k1 = k then some v else mapGet m k1 := by
  induction m with
  | nil =>
    by_cases h : k1 = k
    · subst h
      simp [mapSet, mapGet]
    · simp [mapSet, mapGet, h, Ne.symm h]
  | cons p rest ih =>
    obtain ⟨k2, v2⟩ := p
    by_cases h2 : k2 = k
    · subst h2
      by_cases h : k1 = k2
      · subst h
        simp [mapSet, mapGet]
      · simp [mapSet, mapGet, h, Ne.symm h]
    · by_cases h : k1 = k2
      · subst h
        simp [mapSet, mapGet, h2, Ne.symm h2]
      · by_cases hk : k1 = k
        · subst hk
          simp [mapSet, mapGet, h2, Ne.symm h, ih]
        · simp [mapSet, mapGet, h2, Ne.symm h, hk, ih]

theorem mem_mapSet {m : List (Option String × Award)} {k : Option String}
    {v : Award} {p : Option String × Award} (hp : p ∈ mapSet m k v) :
    p = (k, v) ∨ p ∈ m := by
  induction m with
  | nil =>
    simp only [mapSet, List.mem_singleton] at hp
    exact Or.inl hp
  | cons q rest ih =>
    obtain ⟨k2, v2⟩ := q
    by_cases h2 : k2 = k
    · simp only [mapSet, h2, if_true] at hp
      rcases List.mem_cons.mp hp with hp | hp
      · exact Or.inl hp
      · exact Or.inr (List.mem_cons_of_mem _ hp)
    · simp only [mapSet, h2, if_false] at hp
      rcases List.mem_cons.mp hp with hp | hp
      · exact Or.inr (by rw [hp]; exact List.mem_cons_self _ _)
      · rcases ih hp with h | h
        · exact Or.inl h
        · exact Or.inr (List.mem_cons_of_mem _ h)

theorem mapSet_fst_mem (m : List (Option String × Award)) (k : Option String)
    (v : Award) (k1 : Option String) :
    k1 ∈ (mapSet m k v).map Prod.fst ↔ k1 = k ∨ k1 ∈ m.map Prod.fst := by
  induction m with
  | nil => simp [mapSet]
  | cons q rest ih =>
    obtain ⟨k2, v2⟩ := q
    by_cases h2 : k2 = k
    · subst h2
      simp [mapSet]
    · simp only [mapSet, h2, if_false, List.map_cons, List.mem_cons, ih]
      tauto

theorem mapSet_keys_nodup {m : List (Option String × Award)}
    {k : Option String} {v : Award} (h : (m.map Prod.fst).Nodup) :
    ((mapSet m k v).map Prod.fst).Nodup := by
  induction m with
  | nil => simp [mapSet]
  | cons q rest ih =>
    obtain ⟨k2, v2⟩ := q
    simp only [List.map_cons, List.nodup_cons] at h
    by_cases h2 : k2 = k
    · subst h2
      have he : mapSet ((k2, v2) :: rest) k2 v = (k2, v) :: rest := by
        simp [mapSet]
      rw [he]
      simpa using h
    · simp only [mapSet, h2, if_false, List.map_cons, List.nodup_cons]
      refine ⟨?_, ih h.2⟩
      rw [mapSet_fst_mem]
      rintro (rfl | hmem)
      · exact h2 rfl
      · exact h.1 hmem

theorem mapGet_mem {m : List (Option String × Award)} {k : Option String}
    {v : Award} (h : mapGet m k = some v) : (k, v) ∈ m := by
  induction m with
  | nil => simp [mapGet] at h
  | cons q rest ih =>
    obtain ⟨k2, v2⟩ := q
    by_cases h2 : k2 = k
    · subst h2
      have h1 : mapGet ((k2, v2) :: rest) k2 = some v2 := by simp [mapGet]
      rw [h1] at h
      injection h with h
      rw [← h]
      exact List.mem_cons_self _ _
    · simp only [mapGet, h2, if_false] at h
      exact List.mem_cons_of_mem _ (ih h)

theorem mem_mapGet {m : List (Option String × Award)} {k : Option String}
    {v : Award} (hnd : (m.map Prod.fst).Nodup) (h : (k, v) ∈ m) :
    mapGet m k = some v := by
  induction m with
  | nil => simp at h
  | cons q rest ih =>
    obtain ⟨k2, v2⟩ := q
    simp only [List.map_cons, List.nodup_cons] at hnd
    rcases List.mem_cons.mp h with h | h
    · injection h with e1 e2
      subst e1
      subst e2
      simp [mapGet]
    · have hne : k2 ≠ k := by
        rintro rfl
        exact hnd.1 (List.mem_map.mpr ⟨(k2, v), h, rfl⟩)
      simp only [mapGet, hne, if_false]
      exact ih hnd.2 h

theorem mapGet_isSome_iff (m : List (Option String × Award))
    (k : Option String) :
    (mapGet m k).isSome ↔ k ∈ m.map Prod.fst := by
  induction m with
  | nil => simp [mapGet]
  | cons q rest ih =>
    obtain ⟨k2, v2⟩ := q
    by_cases h2 : k2 = k
    · subst h2
      simp [mapGet]
    · simp [mapGet, h2, ih, Ne.symm h2]

/-! ## The deduplication fold invariant -/

/-- Invariant of the deduplication fold: after folding `seen` into the map
`m`, the map keys are distinct, every entry is keyed by its record's
`award_id`, every stored record was seen, every stored record's date key
dominates its whole group among `seen`, and every seen record's key is
present. -/
structure DedupeInv (m : List (Option String × Award)) (seen : List Award) :
    Prop where
  keys_nodup : (m.map Prod.fst).Nodup
  keyed : ∀ p ∈ m, p.2.award_id = p.1
  get_mem : ∀ k v, mapGet m k = some v → v ∈ seen
  get_max : ∀ k v, mapGet m k = some v → ∀ s ∈ seen, s.award_id = k →
    dateKey s ≤ dateKey v
  covers : ∀ s ∈ seen, (mapGet m s.award_id).isSome

theorem dedupeInv_nil : DedupeInv [] [] where
  keys_nodup := by simp
  keyed := by simp
  get_mem := by intro k v h; simp [mapGet] at h
  get_max := by intro k v h; simp [mapGet] at h
  covers := by simp

theorem dedupeInv_step {m : List (Option String × Award)} {seen : List Award}
    (inv : DedupeInv m seen) (a : Award) :
    DedupeInv (dedupeStep m a) (seen ++ [a]) := by
  unfold dedupeStep
  cases hget : mapGet m a.award_id with
  | none =>
    refine ⟨mapSet_keys_nodup inv.keys_nodup, ?_, ?_, ?_, ?_⟩
    · intro p hp
      rcases mem_mapSet hp with rfl | hp
      · rfl
      · exact inv.keyed p hp
    · intro k v h
      rw [mapGet_mapSet] at h
      by_cases hk : k = a.award_id
      · simp only [hk, if_true, Option.some.injEq] at h
        rw [← h]
        exact List.mem_append_right _ (List.mem_singleton_self a)
      · simp only [hk, if_false] at h
        exact List.mem_append_left _ (inv.get_mem k v h)
    · intro k v h s hs hsid
      rw [mapGet_mapSet] at h
      by_cases hk : k = a.award_id
      · simp only [hk, if_true, Option.some.injEq] at h
        rw [← h]
        rcases List.mem_append.mp hs with hs | hs
        · exfalso
          have hc := inv.covers s hs
          rw [hsid, hk, hget] at hc
          simp at hc
        · rw [List.mem_singleton.mp hs]
      · simp only [hk, if_false] at h
        rcases List.mem_append.mp hs with hs | hs
        · exact inv.get_max k v h s hs hsid
        · exfalso
          rw [List.mem_singleton.mp hs] at hsid
          exact hk hsid.symm
    · intro s hs
      rw [mapGet_mapSet]
      rcases List.mem_append.mp hs with hs | hs
      · by_cases hk : s.award_id = a.award_id
        · simp [hk]
        · simp only [hk, if_false]
          exact inv.covers s hs
      · rw [List.mem_singleton.mp hs]
        simp
  | some existing =>
    by_cases hlt : dateKey existing < dateKey a
    · simp only [hlt, if_true]
      refine ⟨mapSet_keys_nodup inv.keys_nodup, ?_, ?_, ?_, ?_⟩
      · intro p hp
        rcases mem_mapSet hp with rfl | hp
        · rfl
        · exact inv.keyed p hp
      · intro k v h
        rw [mapGet_mapSet] at h
        by_cases hk : k = a.award_id
        · simp only [hk, if_true, Option.some.injEq] at h
          rw [← h]
          exact List.mem_append_right _ (List.mem_singleton_self a)
        · simp only [hk, if_false] at h
          exact List.mem_append_left _ (inv.get_mem k v h)
      · intro k v h s hs hsid
        rw [mapGet_mapSet] at h
        by_cases hk : k = a.award_id
        · simp only [hk, if_true, Option.some.injEq] at h
          rw [← h]
          rcases List.mem_append.mp hs with hs | hs
          · have hget1 : mapGet m k = some existing := by rw [hk]; exact hget
            have hle := inv.get_max k existing hget1 s hs hsid
            exact le_trans hle (le_of_lt hlt)
          · rw [List.mem_singleton.mp hs]
        · simp only [hk, if_false] at h
          rcases List.mem_append.mp hs with hs | hs
          · exact inv.get_max k v h s hs hsid
          · exfalso
            rw [List.mem_singleton.mp hs] at hsid
            exact hk hsid.symm
      · intro s hs
        rw [mapGet_mapSet]
        rcases List.mem_append.mp hs with hs | hs
        · by_cases hk : s.award_id = a.award_id
          · simp [hk]
          · simp only [hk, if_false]
            exact inv.covers s hs
        · rw [List.mem_singleton.mp hs]
          simp
    · simp only [hlt, if_false]
      refine ⟨inv.keys_nodup, inv.keyed, ?_, ?_, ?_⟩
      · intro k v h
        exact List.mem_append_left _ (inv.get_mem k v h)
      · intro k v h s hs hsid
        rcases List.mem_append.mp hs with hs | hs
        · exact inv.get_max k v h s hs hsid
        · rw [List.mem_singleton.mp hs] at hsid ⊢
          have hget1 : mapGet m k = some existing := by
            rw [← hsid]
            exact hget
          rw [h] at hget1
          injection hget1 with hv
          rw [hv]
          exact le_of_not_lt hlt
      · intro s hs
        rcases List.mem_append.mp hs with hs | hs
        · exact inv.covers s hs
        · rw [List.mem_singleton.mp hs, hget]
          simp

theorem dedupeInv_foldl {m : List (Option String × Award)} {seen : List Award}
    (l : List Award) (inv : DedupeInv m seen) :
    DedupeInv (l.foldl dedupeStep m) (seen ++ l) := by
  induction l generalizing m seen with
  | nil => simpa using inv
  | cons a l ih =>
    have h1 := ih (dedupeInv_step inv a)
    simpa [List.append_assoc] using h1

theorem dedupeInv_run (l : List Award) :
    DedupeInv (l.foldl dedupeStep []) l := by
  simpa using dedupeInv_foldl l dedupeInv_nil

/-! ## Facts about `dedupeAwards` -/

theorem dedupeAwards_mem_iff_get {l : List Award} {r : Award} :
    r ∈ dedupeAwards l ↔
      mapGet (l.foldl dedupeStep []) r.award_id = some r := by
  have inv := dedupeInv_run l
  constructor
  · intro h
    rcases List.mem_map.mp h with ⟨p, hp, hpr⟩
    obtain ⟨k, v⟩ := p
    have hvr : v = r := hpr
    have hk : k = v.award_id := (inv.keyed (k, v) hp).symm
    subst hk
    have hg := mem_mapGet inv.keys_nodup hp
    rw [← hvr]
    exact hg
  · intro h
    exact List.mem_map.mpr ⟨(r.award_id, r), mapGet_mem h, rfl⟩

theorem dedupeAwards_subset {l : List Award} {r : Award}
    (h : r ∈ dedupeAwards l) : r ∈ l :=
  (dedupeInv_run l).get_mem _ _ (dedupeAwards_mem_iff_get.mp h)

theorem dedupeAwards_max {l : List Award} {r : Award}
    (h : r ∈ dedupeAwards l) :
    ∀ s ∈ l, s.award_id = r.award_id → dateKey s ≤ dateKey r :=
  (dedupeInv_run l).get_max _ _ (dedupeAwards_mem_iff_get.mp h)

theorem dedupeAwards_ids_map (l : List Award) :
    (dedupeAwards l).map Award.award_id =
      (l.foldl dedupeStep []).map Prod.fst := by
  have inv := dedupeInv_run l
  unfold dedupeAwards
  rw [List.map_map]
  exact List.map_congr_left (fun p hp => inv.keyed p hp)

theorem dedupeAwards_ids_nodup (l : List Award) :
    ((dedupeAwards l).map Award.award_id).Nodup := by
  rw [dedupeAwards_ids_map]
  exact (dedupeInv_run l).keys_nodup

theorem dedupeAwards_mem_ids (l : List Award) (i : Option String) :
    i ∈ (dedupeAwards l).map Award.award_id ↔ i ∈ l.map Award.award_id := by
  have inv := dedupeInv_run l
  rw [dedupeAwards_ids_map]
  constructor
  · intro h
    rw [← mapGet_isSome_iff] at h
    rcases Option.isSome_iff_exists.mp h with ⟨v, hv⟩
    have hmem := inv.get_mem i v hv
    have hkey := inv.keyed (i, v) (mapGet_mem hv)
    exact List.mem_map.mpr ⟨v, hmem, hkey⟩
  · intro h
    rcases List.mem_map.mp h with ⟨s, hs, hsi⟩
    rw [← mapGet_isSome_iff]
    exact hsi ▸ inv.covers s hs

/-- Membership characterization of the deduplicated list when no two distinct
records of the input share both an `award_id` and a date key: exactly the
records that strictly dominate every other record of their group are
retained. -/
theorem dedupeAwards_mem_char {l : List Award}
    (hdist : ∀ a ∈ l, ∀ b ∈ l, a.award_id = b.award_id →
      dateKey a = dateKey b → a = b) (x : Award) :
    x ∈ dedupeAwards l ↔
      x ∈ l ∧ ∀ s ∈ l, s.award_id = x.award_id → s ≠ x →
        dateKey s < dateKey x := by
  constructor
  · intro h
    refine ⟨dedupeAwards_subset h, ?_⟩
    intro s hs hsid hne
    have hle := dedupeAwards_max h s hs hsid
    rcases lt_or_eq_of_le hle with hlt | heq
    · exact hlt
    · exact absurd (hdist s hs x (dedupeAwards_subset h) hsid heq) hne
  · rintro ⟨hx, hdom⟩
    have hid : x.award_id ∈ (dedupeAwards l).map Award.award_id := by
      rw [dedupeAwards_mem_ids]
      exact List.mem_map.mpr ⟨x, hx, rfl⟩
    rcases List.mem_map.mp hid with ⟨r, hr, hrid⟩
    rcases eq_or_ne r x with rfl | hne
    · exact hr
    · exfalso
      have h1 := hdom r (dedupeAwards_subset hr) hrid hne
      have h2 := dedupeAwards_max hr x hx hrid.symm
      exact absurd h1 (not_lt_of_le h2)

/-! ## Lemmas about the batch slicing loop -/

theorem batchSlices_zero (ids : List String) : batchSlices ids 0 = [] := by
  rw [batchSlices]
  simp

theorem batchSlices_nil (B : ℕ) : batchSlices [] B = [] := by
  rw [batchSlices]
  simp

theorem batchSlices_cons {ids : List String} {B : ℕ} (hB : B ≠ 0)
    (hne : ids ≠ []) :
    batchSlices ids B = ids.take B :: batchSlices (ids.drop B) B := by
  rw [batchSlices]
  simp [hB, hne]

theorem batchSlices_length_aux {B : ℕ} (hB : B ≠ 0) :
    ∀ (n : ℕ) (ids : List String), ids.length ≤ n →
      (batchSlices ids B).length = (ids.length + B - 1) / B := by
  intro n
  induction n with
  | zero =>
    intro ids h
    have hnil : ids = [] := List.eq_nil_of_length_eq_zero (Nat.le_zero.mp h)
    subst hnil
    simp [batchSlices_nil, Nat.div_eq_of_lt (by omega : B - 1 < B)]
  | succ n ih =>
    intro ids h
    rcases eq_or_ne ids [] with rfl | hne
    · simp [batchSlices_nil, Nat.div_eq_of_lt (by omega : B - 1 < B)]
    · rw [batchSlices_cons hB hne]
      simp only [List.length_cons]
      rw [ih (ids.drop B) (by simp only [List.length_drop]; omega)]
      simp only [List.length_drop]
      have hpos : 1 ≤ ids.length :=
        Nat.one_le_iff_ne_zero.mpr (fun h0 => hne (List.eq_nil_of_length_eq_zero h0))
      rcases le_or_lt ids.length B with hle | hlt
      · have e1 : ids.length - B = 0 := by omega
        rw [e1]
        have e2 : (0 + B - 1) / B = 0 := Nat.div_eq_of_lt (by omega)
        rw [e2]
        have e3 : ids.length + B - 1 = (ids.length - 1) + B := by omega
        rw [e3, Nat.add_div_right _ (by omega)]
        have e4 : (ids.length - 1) / B = 0 := Nat.div_eq_of_lt (by omega)
        omega
      · have e1 : ids.length - B + B - 1 = ids.length - 1 := by omega
        have e3 : ids.length + B - 1 = (ids.length - 1) + B := by omega
        rw [e1, e3, Nat.add_div_right _ (by omega)]

/-- The batch loop issues exactly `ceil(N / B)` batch queries. -/
theorem batchSlices_length {B : ℕ} (hB : B ≠ 0) (ids : List String) :
    (batchSlices ids B).length = (ids.length + B - 1) / B :=
  batchSlices_length_aux hB ids.length ids le_rfl

theorem batchSlices_getD_aux {B : ℕ} (hB : B ≠ 0) :
    ∀ (n : ℕ) (ids : List String) (i : ℕ), ids.length ≤ n →
      (batchSlices ids B).getD i [] = (ids.drop (i * B)).take B := by
  intro n
  induction n with
  | zero =>
    intro ids i h
    have hnil : ids = [] := List.eq_nil_of_length_eq_zero (Nat.le_zero.mp h)
    subst hnil
    simp [batchSlices_nil]
  | succ n ih =>
    intro ids i h
    rcases eq_or_ne ids [] with rfl | hne
    · simp [batchSlices_nil]
    · rw [batchSlices_cons hB hne]
      cases i with
      | zero => simp
      | succ i =>
        simp only [List.getD_cons_succ]
        rw [ih (ids.drop B) i (by simp only [List.length_drop]; omega)]
        rw [List.drop_drop]
        rw [Nat.succ_mul, Nat.add_comm (i * B) B]

/-- Each batch issued by the loop is the corresponding consecutive slice of
the identifier list. -/
theorem batchSlices_getD {B : ℕ} (hB : B ≠ 0) (ids : List String) (i : ℕ) :
    (batchSlices ids B).getD i [] = (ids.drop (i * B)).take B :=
  batchSlices_getD_aux hB ids.length ids i le_rfl

theorem batchSlices_subset_aux :
    ∀ (n : ℕ) (B : ℕ) (ids : List String) (b : List String),
      ids.length ≤ n → b ∈ batchSlices ids B → ∀ x ∈ b, x ∈ ids := by
  intro n
  induction n with
  | zero =>
    intro B ids b h hb
    have hnil : ids = [] := List.eq_nil_of_length_eq_zero (Nat.le_zero.mp h)
    subst hnil
    simp [batchSlices_nil] at hb
  | succ n ih =>
    intro B ids b h hb x hx
    rcases eq_or_ne B 0 with rfl | hB
    · simp [batchSlices_zero] at hb
    · rcases eq_or_ne ids [] with rfl | hne
      · simp [batchSlices_nil] at hb
      · rw [batchSlices_cons hB hne] at hb
        rcases List.mem_cons.mp hb with rfl | hb
        · exact List.take_subset B ids hx
        · exact List.drop_subset B ids
            (ih B (ids.drop B) b (by simp only [List.length_drop]; omega) hb x hx)

/-- Every element of every batch comes from the input identifier list. -/
theorem batchSlices_subset {B : ℕ} {ids b : List String}
    (hb : b ∈ batchSlices ids B) : ∀ x ∈ b, x ∈ ids :=
  batchSlices_subset_aux ids.length B ids b le_rfl hb

theorem fetchAwardsByIdsLoop_eq_aux
    (source : List String → Except String (List AwardResult))
    (awardIds : List String) {B : ℕ} (hB : B ≠ 0) :
    ∀ (n i : ℕ) (acc : List AwardResult), awardIds.length - i ≤ n →
      fetchAwardsByIdsLoop source awardIds B i acc =
        acc ++ (batchSlices (awardIds.drop i) B).flatMap
          (fun b => batchResultsOrEmpty (source b)) := by
  intro n
  induction n with
  | zero =>
    intro i acc h
    have hge : awardIds.length ≤ i := by omega
    rw [fetchAwardsByIdsLoop, dif_neg hB, dif_neg (by omega : ¬i < awardIds.length)]
    rw [List.drop_eq_nil_of_le hge, batchSlices_nil]
    simp
  | succ n ih =>
    intro i acc h
    rcases lt_or_le i awardIds.length with hlt | hge
    · rw [fetchAwardsByIdsLoop, dif_neg hB, dif_pos hlt]
      rw [ih (i + B) _ (by omega)]
      have hdne : awardIds.drop i ≠ [] := by
        intro h0
        have hlen := List.length_drop i awardIds
        rw [h0] at hlen
        simp only [List.length_nil] at hlen
        omega
      rw [batchSlices_cons hB hdne, List.flatMap_cons, List.drop_drop]
      cases hsrc : source ((awardIds.drop i).take B) with
      | ok rs => simp [batchResultsOrEmpty, hsrc]
      | error e => simp [batchResultsOrEmpty, hsrc]
    · rw [fetchAwardsByIdsLoop, dif_neg hB, dif_neg (by omega : ¬i < awardIds.length)]
      rw [List.drop_eq_nil_of_le hge, batchSlices_nil]
      simp

/-- The batch accumulation loop started from index 0 computes exactly the
union of per-batch results over the batch slices. -/
theorem fetchAwardsByIdsLoop_eq
    (source : List String → Except String (List AwardResult))
    (awardIds : List String) {B : ℕ} (hB : B ≠ 0) :
    fetchAwardsByIdsLoop source awardIds B 0 [] =
      rawBatchUnion source awardIds B := by
  have h := fetchAwardsByIdsLoop_eq_aux source awardIds hB awardIds.length 0 []
    (by omega)
  simpa [rawBatchUnion] using h

/-! ## Invariant of the pagination loop -/

/-- Invariant of the `fetchAllAwards` / `fetchAllTransactions` loop state:
the running total is the sum of the page result counts, `stoppedByHasNext`
holds exactly when the last fetched page carried `hasNext = false`, and the
loop never continues past a page that cleared `hasMore`. -/
structure PagesInv (st : FetchState α) : Prop where
  total_eq : st.totalFetched =
    (st.responses.map (fun r => r.results.length)).sum
  stopped_iff : st.stoppedByHasNext = true ↔
    st.responses.getLast?.map PageResponse.hasNext = some false
  more_not_stopped : st.hasMore = true → st.stoppedByHasNext = false

theorem pagesInv_init {α : Type} : PagesInv (initialFetchState α) where
  total_eq := by simp [initialFetchState]
  stopped_iff := by simp [initialFetchState]
  more_not_stopped := by simp [initialFetchState]

theorem fetchPagesLoop_inv {α : Type} {source : ℕ → PageResponse α}
    {maxRecords : ℕ} :
    ∀ (fuel : ℕ) (st st1 : FetchState α),
      fetchPagesLoop source maxRecords fuel st = some st1 →
      PagesInv st → PagesInv st1 := by
  intro fuel
  induction fuel with
  | zero =>
    intro st st1 h hinv
    rw [fetchPagesLoop] at h
    by_cases hc : st.hasMore ∧ st.totalFetched < maxRecords
    · rw [if_pos hc] at h
      exact absurd h (by simp)
    · rw [if_neg hc] at h
      injection h with h
      rw [← h]
      exact hinv
  | succ fuel ih =>
    intro st st1 h hinv
    rw [fetchPagesLoop] at h
    by_cases hc : st.hasMore ∧ st.totalFetched < maxRecords
    · rw [if_pos hc] at h
      have hinv1 : PagesInv
          ({ responses := st.responses ++ [source st.currentPage]
             currentPage := st.currentPage + 1
             hasMore := (source st.currentPage).hasNext
             totalFetched :=
               st.totalFetched + (source st.currentPage).results.length
             stoppedByHasNext :=
               if (source st.currentPage).hasNext then st.stoppedByHasNext
               else true } : FetchState α) := by
        refine ⟨?_, ?_, ?_⟩
        · simp [List.map_append, List.sum_append, hinv.total_eq]
        · simp only [List.getLast?_concat, Option.map_some]
          cases hn : (source st.currentPage).hasNext with
          | true =>
            have hstop := hinv.more_not_stopped hc.1
            simp [hn, hstop]
          | false =>
            simp [hn]
        · intro hmore
          simp only at hmore
          simp only [hmore, if_true]
          exact hinv.more_not_stopped hc.1
      by_cases hmax : maxRecords ≤
          st.totalFetched + (source st.currentPage).results.length
      · rw [if_pos hmax] at h
        injection h with h
        rw [← h]
        exact hinv1
      · rw [if_neg hmax] at h
        exact ih _ _ h hinv1
    · rw [if_neg hc] at h
      injection h with h
      rw [← h]
      exact hinv

/-! ## Concrete fixtures for witnesses and counterexamples -/

/-- Fixture: an award with the given identifier, last-modified date and
recipient name; every other field is fixed. -/
def sampleAward (id lmd : Option String) (name : String) : Award where
  award_id := id
  award_type := "A"
  award_amount := 0
  award_date := ""
  start_date := none
  end_date := none
  last_modified_date := lmd
  base_obligation_date := none
  awarding_agency := ""
  awarding_sub_agency := none
  funding_agency := none
  recipient_name := name
  recipient_uei := none
  recipient_business_categories := []
  award_description := ""
  naics_code := none
  psc_code := none
  place_of_performance_state := none
  ingested_at := ""
  source_url := ""

/-- Fixture: a transaction with the given modification number and action
type description; every other field is fixed. -/
def sampleTransaction (modNum : Option String) (atd : String) : Transaction where
  transaction_id := "t"
  award_id := some "W1"
  generated_internal_id := none
  action_date := ""
  action_type := ""
  action_type_description := atd
  modification_number := modNum
  federal_action_obligation := 0
  total_dollars_obligated := 0
  award_type := ""
  award_description := ""
  period_of_performance_start_date := none
  period_of_performance_current_end_date := none
  awarding_agency_name := ""
  awarding_sub_agency_name := none
  funding_agency_name := none
  recipient_name := ""
  recipient_uei := none
  naics_code := none
  product_or_service_code := none
  place_of_performance_state := none
  ingested_at := ""
  source_url := ""

/-- Fixture: a raw transaction record with every field absent. -/
def emptyTransactionResult : TransactionResult where
  internal_id := none
  generated_internal_id := none
  awardID := none
  actionDate := none
  actionType := none
  mod := none
  transactionAmount := none
  awardType := none
  transactionDescription := none
  issuedDate := none
  lastDateToOrder := none
  awardingAgency := none
  awardingSubAgency := none
  fundingAgency := none
  recipientName := none
  recipientUEI := none
  naics_code := none
  product_or_service_code := none
  pop_state_code := none

/-- Fixture: a raw award record with every field absent. -/
def emptyAwardResult : AwardResult where
  awardID := none
  internal_id := none
  generated_internal_id := none
  contractAwardType := none
  awardType := none
  awardAmount := none
  awardDate := none
  startDate := none
  endDate := none
  lastModifiedDate := none
  baseObligationDate := none
  awardingAgency := none
  awardingSubAgency := none
  fundingAgency := none
  recipientName := none
  recipientUEI := none
  description := none
  naics_code := none
  product_or_service_code := none
  placeOfPerformanceStateCode := none

/-! ## Claim theorems -/

/-- C1: For every list of normalized Award records, the Stage 2
deduplication yields exactly one record per distinct `award_id` (the
retained identifiers are duplicate-free and are exactly the identifiers of
the input), and each retained record's `last_modified_date` is the maximum
among all input records sharing its `award_id`, a null/absent date being
treated as the minimum (it maps to the empty date key). -/
theorem C1_dedupe_unique_max (l : List Award) :
    ((dedupeAwards l).map Award.award_id).Nodup ∧
    (∀ i : Option String,
      i ∈ (dedupeAwards l).map Award.award_id ↔ i ∈ l.map Award.award_id) ∧
    (∀ r ∈ dedupeAwards l, r ∈ l ∧
      ∀ s ∈ l, s.award_id = r.award_id → dateKey s ≤ dateKey r) :=
  ⟨dedupeAwards_ids_nodup l, dedupeAwards_mem_ids l,
    fun r hr => ⟨dedupeAwards_subset hr, dedupeAwards_max hr⟩⟩

/-- Evaluation of the deduplication on the C1 witness list: the duplicate
with the null date is collapsed into the record carrying the date "B". -/
theorem dedupe_c1_eval :
    dedupeAwards [sampleAward (some "X") none "one",
      sampleAward (some "X") (some "B") "two"] =
      [sampleAward (some "X") (some "B") "two"] := by
  simp [dedupeAwards, dedupeStep, mapGet, mapSet, dateKey, sampleAward,
    List.nil_lt_cons]

/-- Witness for C1 at a two-element list with a duplicated identifier: the
record retained by the deduplication belongs to the input and dominates the
record with the null date. -/
theorem C1_dedupe_unique_max_witness :
    sampleAward (some "X") (some "B") "two" ∈
      [sampleAward (some "X") none "one",
        sampleAward (some "X") (some "B") "two"] ∧
    dateKey (sampleAward (some "X") none "one") ≤
      dateKey (sampleAward (some "X") (some "B") "two") := by
  have h := (C1_dedupe_unique_max [sampleAward (some "X") none "one",
    sampleAward (some "X") (some "B") "two"]).2.2
    (sampleAward (some "X") (some "B") "two")
    (by rw [dedupe_c1_eval]; exact List.mem_singleton_self _)
  exact ⟨h.1, h.2 (sampleAward (some "X") none "one") (by decide) rfl⟩

/-- C2: For every paginated collection run of the fetch engine (awards and
transactions both instantiate the generic page type), the possibly-truncated
warning is raised iff the total accumulated record count equals 10000, the
number of pages fetched equals `ceil(10000 / page_size)` for the configured
page size, and the source's `hasNext` signal was false on the final page
fetched. -/
theorem C2_truncation_iff {α : Type} (source : ℕ → PageResponse α)
    (maxRecords fuel pageSize : ℕ) (st : FetchState α)
    (hrun : fetchAllPages source maxRecords fuel = some st) :
    truncationFlag pageSize st = true ↔
      st.totalFetched = 10000 ∧
      st.responses.length = (10000 + pageSize - 1) / pageSize ∧
      st.responses.getLast?.map PageResponse.hasNext = some false := by
  have hinv := fetchPagesLoop_inv fuel _ st hrun pagesInv_init
  unfold truncationFlag checkForTruncation
  simp only [Bool.and_eq_true, decide_eq_true_eq]
  rw [hinv.stopped_iff]

/-- Fixture: a one-page source whose single page carries one record and
signals no further pages. -/
def sampleSource : ℕ → PageResponse ℕ :=
  fun _ => { results := [7], hasNext := false }

/-- Fixture: the state in which the pagination loop finishes on
`sampleSource` with `max_records = 5`. -/
def sampleFinalState : FetchState ℕ where
  responses := [{ results := [7], hasNext := false }]
  currentPage := 2
  hasMore := false
  totalFetched := 1
  stoppedByHasNext := true

/-- Witness for C2 on a concrete terminated run of the pagination loop. -/
theorem C2_truncation_iff_witness :
    truncationFlag 100 sampleFinalState = true ↔
      sampleFinalState.totalFetched = 10000 ∧
      sampleFinalState.responses.length = (10000 + 100 - 1) / 100 ∧
      sampleFinalState.responses.getLast?.map PageResponse.hasNext =
        some false :=
  C2_truncation_iff sampleSource 5 3 100 sampleFinalState (by decide)

/-- C3: For every identifier list of length N and every batch size B > 0,
the Batch ID Fetcher's loop processes exactly the `ceil(N/B)` consecutive
slices of the input list, and, for a source that honours the identifier
filter of each batch, the union of per-batch results before deduplication
contains no award identifier outside the input list. -/
theorem C3_batch_queries
    (source : List String → Except String (List AwardResult))
    (awardIds : List String) (B : ℕ) (hB : 0 < B)
    (honor : ∀ b rs, source b = Except.ok rs →
      ∀ r ∈ rs, ∀ s, r.awardID = some s → s ∈ b) :
    fetchAwardsByIdsLoop source awardIds B 0 [] =
      rawBatchUnion source awardIds B ∧
    (batchSlices awardIds B).length = (awardIds.length + B - 1) / B ∧
    (∀ i, (batchSlices awardIds B).getD i [] =
      (awardIds.drop (i * B)).take B) ∧
    (∀ r ∈ rawBatchUnion source awardIds B, ∀ s, r.awardID = some s →
      s ∈ awardIds) := by
  have hB1 : B ≠ 0 := Nat.pos_iff_ne_zero.mp hB
  refine ⟨fetchAwardsByIdsLoop_eq source awardIds hB1,
    batchSlices_length hB1 _, fun i => batchSlices_getD hB1 _ i, ?_⟩
  intro r hr s hs
  unfold rawBatchUnion at hr
  rcases List.mem_flatMap.mp hr with ⟨b, hb, hrb⟩
  cases hsrc : source b with
  | ok rs =>
    rw [hsrc] at hrb
    simp only [batchResultsOrEmpty] at hrb
    exact batchSlices_subset hb s (honor b rs hsrc r hrb s hs)
  | error e =>
    rw [hsrc] at hrb
    simp [batchResultsOrEmpty] at hrb

/-- Fixture: a batch source that always succeeds with no results (it
trivially honours any identifier filter). -/
def sampleEmptySource : List String → Except String (List AwardResult) :=
  fun _ => Except.ok []

/-- Witness for C3 on a concrete three-element identifier list with batch
size two. -/
theorem C3_batch_queries_witness :
    (batchSlices ["a", "b", "c"] 2).length =
      (["a", "b", "c"].length + 2 - 1) / 2 :=
  (C3_batch_queries sampleEmptySource ["a", "b", "c"] 2 (by decide)
    (by
      intro b rs hrs r hr s hsome
      cases hrs
      simp at hr)).2.1

/-- C4: For every list of filtered transactions and every award list, the
join rate computed by the join analysis lies in [0, 100], and it is exactly
0 for the empty filtered-transaction list (the division is guarded, so the
rate is defined for every input). -/
theorem C4_join_rate_bounds (transactions : List Transaction)
    (awards : List Award) :
    0 ≤ (analyzeJoin transactions awards).matchRate ∧
    (analyzeJoin transactions awards).matchRate ≤ 100 ∧
    (analyzeJoin [] awards).matchRate = 0 := by
  refine ⟨?_, ?_, by simp [analyzeJoin]⟩
  · unfold analyzeJoin
    simp only
    by_cases hn : 0 < transactions.length
    · rw [if_pos hn]
      have h0 : (0 : ℚ) ≤ (transactions.countP fun tx =>
          (awards.map Award.award_id).contains tx.award_id : ℚ) := by
        positivity
      have h1 : (0 : ℚ) ≤ (transactions.length : ℚ) := by positivity
      positivity
    · rw [if_neg hn]
  · unfold analyzeJoin
    simp only
    by_cases hn : 0 < transactions.length
    · rw [if_pos hn]
      have hle : ((transactions.countP fun tx =>
          (awards.map Award.award_id).contains tx.award_id) : ℚ) ≤
          (transactions.length : ℚ) := by
        exact_mod_cast List.countP_le_length _
      have hdiv : ((transactions.countP fun tx =>
          (awards.map Award.award_id).contains tx.award_id) : ℚ) /
          (transactions.length : ℚ) ≤ 1 :=
        div_le_one_of_le₀ hle (by positivity)
      calc ((transactions.countP fun tx =>
              (awards.map Award.award_id).contains tx.award_id) : ℚ) /
              (transactions.length : ℚ) * 100
          ≤ 1 * 100 := by
            exact mul_le_mul_of_nonneg_right hdiv (by norm_num)
        _ = 100 := one_mul 100
    · rw [if_neg hn]
      norm_num

/-- C5: The Stage 1 new-event filter retains a transaction iff its
modification number is the zero sequence value `'0'` or its action-type
description is `'NEW'`; retained transactions are the original records, in
order (a sublist); in particular a transaction with a null modification
number and description `'NEW'` is retained, and one with modification
number `'001'` and a non-new description is excluded. -/
theorem C5_new_filter (txs : List Transaction) (tx : Transaction) :
    (tx ∈ filterNewTransactions txs ↔ tx ∈ txs ∧
      (tx.modification_number = some "0" ∨
        tx.action_type_description = "NEW")) ∧
    (filterNewTransactions txs).Sublist txs ∧
    (tx ∈ txs → tx.modification_number = none →
      tx.action_type_description = "NEW" →
      tx ∈ filterNewTransactions txs) ∧
    (tx.modification_number = some "001" →
      tx.action_type_description ≠ "NEW" →
      tx ∉ filterNewTransactions txs) := by
  have hiff : tx ∈ filterNewTransactions txs ↔ tx ∈ txs ∧
      (tx.modification_number = some "0" ∨
        tx.action_type_description = "NEW") := by
    simp [filterNewTransactions, List.mem_filter]
  refine ⟨hiff, List.filter_sublist _, ?_, ?_⟩
  · intro hmem hmod hatd
    exact hiff.mpr ⟨hmem, Or.inr hatd⟩
  · intro hmod hatd hcontra
    rcases (hiff.mp hcontra).2 with h | h
    · rw [hmod] at h
      exact absurd (Option.some.injEq .. ▸ h) (by simp)
    · exact hatd h

/-- Witness for C5: the two scenario transactions, retained and excluded
respectively. -/
theorem C5_new_filter_witness :
    sampleTransaction none "NEW" ∈
      filterNewTransactions
        [sampleTransaction none "NEW",
          sampleTransaction (some "001") "CONTINUATION"] ∧
    sampleTransaction (some "001") "CONTINUATION" ∉
      filterNewTransactions
        [sampleTransaction none "NEW",
          sampleTransaction (some "001") "CONTINUATION"] := by
  constructor
  · exact (C5_new_filter _ (sampleTransaction none "NEW")).2.2.1
      (by decide) rfl rfl
  · exact (C5_new_filter _ (sampleTransaction (some "001") "CONTINUATION")).2.2.2
      rfl (by decide)

/-- C6: For every run of the Stage 2 dedup/missing-id step in which the
requested identifier list is duplicate-free (Stage 1 extracts it through a
`Set`) and every fetched award carries a requested identifier, the report's
`awardsMissing` count equals the length of `missingAwardIds`, and
`missingAwardIds` contains exactly the requested identifiers absent from the
deduplicated award set; in particular 1522 requested with 1510 returned
gives `awardsMissing = 12` and a 12-element missing list. -/
theorem C6_missing_ids (allAwards : List Award)
    (awardIds : List (Option String)) (hnd : awardIds.Nodup)
    (hsub : ∀ a ∈ allAwards, a.award_id ∈ awardIds) :
    awardsMissingCount awardIds (fetchAwardsByIdStage allAwards awardIds).1 =
      ((fetchAwardsByIdStage allAwards awardIds).2.length : ℤ) ∧
    (∀ i, i ∈ (fetchAwardsByIdStage allAwards awardIds).2 ↔
      i ∈ awardIds ∧
        ∀ a ∈ (fetchAwardsByIdStage allAwards awardIds).1, a.award_id ≠ i) ∧
    (awardIds.length = 1522 →
      (fetchAwardsByIdStage allAwards awardIds).1.length = 1510 →
      awardsMissingCount awardIds (fetchAwardsByIdStage allAwards awardIds).1
          = 12 ∧
        (fetchAwardsByIdStage allAwards awardIds).2.length = 12) := by
  have hstage1 : (fetchAwardsByIdStage allAwards awardIds).1 =
      dedupeAwards allAwards := rfl
  have hstage2 : (fetchAwardsByIdStage allAwards awardIds).2 =
      awardIds.filter (fun id =>
        !(((dedupeAwards allAwards).map Award.award_id).contains id)) := rfl
  have hdnodup := dedupeAwards_ids_nodup allAwards
  have hdsub : ∀ i ∈ (dedupeAwards allAwards).map Award.award_id,
      i ∈ awardIds := by
    intro i hi
    rw [dedupeAwards_mem_ids] at hi
    rcases List.mem_map.mp hi with ⟨a, ha, hai⟩
    exact hai ▸ hsub a ha
  have hsplit2 : awardIds.length =
      (awardIds.filter (fun id =>
        ((dedupeAwards allAwards).map Award.award_id).contains id)).length +
      (awardIds.filter (fun id =>
        !(((dedupeAwards allAwards).map Award.award_id).contains id))).length := by
    simpa using List.length_eq_length_filter_add (l := awardIds)
      (fun id => ((dedupeAwards allAwards).map Award.award_id).contains id)
  have hkept : (awardIds.filter (fun id =>
      ((dedupeAwards allAwards).map Award.award_id).contains id)).length =
      (dedupeAwards allAwards).length := by
    have hknd : (awardIds.filter (fun id =>
        ((dedupeAwards allAwards).map Award.award_id).contains id)).Nodup :=
      hnd.filter _
    have htf : (awardIds.filter (fun id =>
        ((dedupeAwards allAwards).map Award.award_id).contains id)).toFinset =
        ((dedupeAwards allAwards).map Award.award_id).toFinset := by
      ext x
      simp only [List.mem_toFinset, List.mem_filter]
      constructor
      · rintro ⟨hx, hc⟩
        simpa using hc
      · intro hx
        exact ⟨hdsub x hx, by simpa using hx⟩
    calc (awardIds.filter (fun id =>
            ((dedupeAwards allAwards).map Award.award_id).contains id)).length
        = (awardIds.filter (fun id =>
            ((dedupeAwards allAwards).map Award.award_id).contains
              id)).toFinset.card := (List.toFinset_card_of_nodup hknd).symm
      _ = ((dedupeAwards allAwards).map Award.award_id).toFinset.card := by
          rw [htf]
      _ = ((dedupeAwards allAwards).map Award.award_id).length :=
          List.toFinset_card_of_nodup hdnodup
      _ = (dedupeAwards allAwards).length := by rw [List.length_map]
  have hlen2 : (fetchAwardsByIdStage allAwards awardIds).2.length +
      (dedupeAwards allAwards).length = awardIds.length := by
    rw [hstage2]
    omega
  refine ⟨?_, ?_, ?_⟩
  · unfold awardsMissingCount
    rw [hstage1]
    omega
  · intro i
    rw [hstage2, hstage1, List.mem_filter]
    constructor
    · rintro ⟨hi, hc⟩
      refine ⟨hi, ?_⟩
      intro a ha hai
      have hmem : i ∈ (dedupeAwards allAwards).map Award.award_id :=
        List.mem_map.mpr ⟨a, ha, hai⟩
      simp [hmem] at hc
    · rintro ⟨hi, hna⟩
      refine ⟨hi, ?_⟩
      have hnm : i ∉ (dedupeAwards allAwards).map Award.award_id := by
        intro hmem
        rcases List.mem_map.mp hmem with ⟨a, ha, hai⟩
        exact hna a ha hai
      simp [hnm]
  · intro h1522 h1510
    rw [hstage1] at h1510
    constructor
    · unfold awardsMissingCount
      rw [hstage1]
      omega
    · omega

/-- Witness for C6: two requested identifiers, one of them returned. -/
theorem C6_missing_ids_witness :
    awardsMissingCount [some "a", some "b"]
      (fetchAwardsByIdStage [sampleAward (some "a") none "x"]
        [some "a", some "b"]).1 =
      ((fetchAwardsByIdStage [sampleAward (some "a") none "x"]
        [some "a", some "b"]).2.length : ℤ) :=
  (C6_missing_ids [sampleAward (some "a") none "x"] [some "a", some "b"]
    (by decide) (by decide)).1

/-- C7: If the fetch of one batch fails with a transport error, that batch's
results are omitted, no error propagates to the caller (the batch fetcher is
a total function into award lists), and every subsequent batch is still
processed: the output equals the normalized union of the results of exactly
the successful batches. -/
theorem C7_batch_failure_isolation (now : String)
    (source : List String → Except String (List AwardResult))
    (awardIds : List String) (B : ℕ) (hB : 0 < B) :
    fetchAwardsByIds now source awardIds B =
      normalizeAwards now (rawBatchUnion source awardIds B) := by
  unfold fetchAwardsByIds
  rw [fetchAwardsByIdsLoop_eq source awardIds (Nat.pos_iff_ne_zero.mp hB)]

/-- Fixture: a batch source that fails on the batch `["a", "b"]` and
succeeds with one empty raw record on any other batch. -/
def sampleFailingSource : List String → Except String (List AwardResult) :=
  fun b =>
    if b = ["a", "b"] then Except.error "transport error"
    else Except.ok [emptyAwardResult]

/-- Witness for C7 on a run whose first batch fails and whose second batch
succeeds. -/
theorem C7_batch_failure_isolation_witness :
    fetchAwardsByIds "t0" sampleFailingSource ["a", "b", "c"] 2 =
      normalizeAwards "t0"
        (rawBatchUnion sampleFailingSource ["a", "b", "c"] 2) :=
  C7_batch_failure_isolation "t0" sampleFailingSource ["a", "b", "c"] 2
    (by decide)

/-- C8: the normalizers are total functions of the raw record (defined for
every raw record, they cannot raise), and each output field whose raw source
fields are absent receives its documented default: empty string, null, zero,
`'Unknown'`, or the empty business-category set, as appropriate per
field. -/
theorem C8_normalize_defaults (now : String) (t : TransactionResult)
    (a : AwardResult)
    (ht : t.actionDate = none ∧ t.actionType = none ∧ t.mod = none ∧
      t.transactionAmount = none ∧ t.awardType = none ∧
      t.transactionDescription = none ∧ t.issuedDate = none ∧
      t.lastDateToOrder = none ∧ t.awardingAgency = none ∧
      t.awardingSubAgency = none ∧ t.fundingAgency = none ∧
      t.recipientName = none ∧ t.recipientUEI = none ∧
      t.naics_code = none ∧ t.product_or_service_code = none ∧
      t.pop_state_code = none)
    (ha : a.contractAwardType = none ∧ a.awardType = none ∧
      a.awardAmount = none ∧ a.awardDate = none ∧ a.startDate = none ∧
      a.endDate = none ∧ a.lastModifiedDate = none ∧
      a.baseObligationDate = none ∧ a.awardingAgency = none ∧
      a.awardingSubAgency = none ∧ a.fundingAgency = none ∧
      a.recipientName = none ∧ a.recipientUEI = none ∧
      a.description = none ∧ a.naics_code = none ∧
      a.product_or_service_code = none ∧
      a.placeOfPerformanceStateCode = none) :
    (normalizeTransaction now t).action_date = "" ∧
    (normalizeTransaction now t).action_type = "" ∧
    (normalizeTransaction now t).action_type_description = "Unknown" ∧
    (normalizeTransaction now t).modification_number = none ∧
    (normalizeTransaction now t).federal_action_obligation = 0 ∧
    (normalizeTransaction now t).total_dollars_obligated = 0 ∧
    (normalizeTransaction now t).award_type = "Unknown" ∧
    (normalizeTransaction now t).award_description = "" ∧
    (normalizeTransaction now t).period_of_performance_start_date = none ∧
    (normalizeTransaction now t).period_of_performance_current_end_date =
      none ∧
    (normalizeTransaction now t).awarding_agency_name = "" ∧
    (normalizeTransaction now t).awarding_sub_agency_name = none ∧
    (normalizeTransaction now t).funding_agency_name = none ∧
    (normalizeTransaction now t).recipient_name = "" ∧
    (normalizeTransaction now t).recipient_uei = none ∧
    (normalizeTransaction now t).naics_code = none ∧
    (normalizeTransaction now t).product_or_service_code = none ∧
    (normalizeTransaction now t).place_of_performance_state = none ∧
    (normalizeAward now a).award_type = "Unknown" ∧
    (normalizeAward now a).award_amount = 0 ∧
    (normalizeAward now a).award_date = "" ∧
    (normalizeAward now a).start_date = none ∧
    (normalizeAward now a).end_date = none ∧
    (normalizeAward now a).last_modified_date = none ∧
    (normalizeAward now a).base_obligation_date = none ∧
    (normalizeAward now a).awarding_agency = "" ∧
    (normalizeAward now a).awarding_sub_agency = none ∧
    (normalizeAward now a).funding_agency = none ∧
    (normalizeAward now a).recipient_name = "" ∧
    (normalizeAward now a).recipient_uei = none ∧
    (normalizeAward now a).recipient_business_categories = [] ∧
    (normalizeAward now a).award_description = "" ∧
    (normalizeAward now a).naics_code = none ∧
    (normalizeAward now a).psc_code = none ∧
    (normalizeAward now a).place_of_performance_state = none := by
  obtain ⟨h1, h2, h3, h4, h5, h6, h7, h8, h9, h10, h11, h12, h13, h14, h15,
    h16⟩ := ht
  obtain ⟨g1, g2, g3, g4, g5, g6, g7, g8, g9, g10, g11, g12, g13, g14, g15,
    g16, g17⟩ := ha
  simp [normalizeTransaction, normalizeAward, jsOrD, jsOrS, jsOrNum, jsOr,
    jsTruthy, actionTypeMap, h1, h2, h3, h4, h5, h6, h7, h8, h9, h10, h11,
    h12, h13, h14, h15, h16, g1, g2, g3, g4, g5, g6, g7, g8, g9, g10, g11,
    g12, g13, g14, g15, g16, g17]

/-- Witness for C8 at the raw records with every field absent. -/
theorem C8_normalize_defaults_witness :
    (normalizeTransaction "t0" emptyTransactionResult).action_type_description
        = "Unknown" ∧
    (normalizeTransaction "t0" emptyTransactionResult).action_date = "" := by
  have h := C8_normalize_defaults "t0" emptyTransactionResult
    emptyAwardResult (by decide) (by decide)
  exact ⟨h.2.2.1, h.1⟩

/-- C9: For a raw transaction whose award identifier is a nonempty all-digit
string of length at most 4, the normalizer recovers the true identifier from
the composite generated identifier by splitting on `'_'` and taking index 4
whenever that component is longer than 4 characters, and falls back to the
short identifier when the composite string is absent or malformed. -/
theorem C9_award_id_extraction (now : String) (t : TransactionResult)
    (s : String) (hid : t.awardID = some s) (hne : s ≠ "")
    (hlen : s.length ≤ 4) (hdig : s.toList.all Char.isDigit = true) :
    (∀ g e, t.generated_internal_id = some g → g ≠ "" →
      6 ≤ (jsSplit g '_').length → (jsSplit g '_').getD 4 "" = e →
      e ≠ "" → 4 < e.length →
      (normalizeTransaction now t).award_id = some e) ∧
    (t.generated_internal_id = none →
      (normalizeTransaction now t).award_id = some s) ∧
    (∀ g, t.generated_internal_id = some g → (jsSplit g '_').length < 6 →
      (normalizeTransaction now t).award_id = some s) ∧
    (∀ g, t.generated_internal_id = some g → g ≠ "" →
      ((jsSplit g '_').getD 4 "").length ≤ 4 →
      (normalizeTransaction now t).award_id = some s) := by
  have hidx : (normalizeTransaction now t).award_id =
      extractAwardId t.awardID t.generated_internal_id := rfl
  refine ⟨?_, ?_, ?_, ?_⟩
  · intro g e hg hgne hparts he hene helen
    subst he
    rw [hidx, hid, hg]
    simp only [extractAwardId]
    rw [if_pos ⟨hne, hlen, hdig⟩]
    rw [if_pos hgne]
    rw [if_pos hparts]
    rw [if_pos ⟨hene, helen⟩]
  · intro hg
    rw [hidx, hid, hg]
    simp only [extractAwardId]
    rw [if_pos ⟨hne, hlen, hdig⟩]
  · intro g hg hshort
    have h6 : ¬ 6 ≤ (jsSplit g '_').length := by omega
    rw [hidx, hid, hg]
    simp only [extractAwardId]
    rw [if_pos ⟨hne, hlen, hdig⟩]
    by_cases hg0 : g = ""
    · rw [if_neg (fun hcon => hcon hg0)]
    · rw [if_pos hg0]
      rw [if_neg h6]
  · intro g hg hgne hshort
    rw [hidx, hid, hg]
    simp only [extractAwardId]
    rw [if_pos ⟨hne, hlen, hdig⟩]
    rw [if_pos hgne]
    by_cases h6 : 6 ≤ (jsSplit g '_').length
    · have hnl : ¬ 4 < ((jsSplit g '_').getD 4 "").length := by omega
      rw [if_pos h6]
      rw [if_neg (fun hcon => hnl hcon.2)]
    · rw [if_neg h6]

/-- Fixture: the raw transaction of the C9 scenario, with the truncated
identifier `"0001"` and its companion composite identifier. -/
def sampleRawTx9 : TransactionResult :=
  { emptyTransactionResult with
      awardID := some "0001"
      generated_internal_id :=
        some "CONT_AWD_0001_9700_W52P1J13G0027_9700" }

/-- Witness for C9: the scenario record normalizes to the extracted
identifier `"W52P1J13G0027"`. -/
theorem C9_award_id_extraction_witness :
    (normalizeTransaction "t0" sampleRawTx9).award_id =
      some "W52P1J13G0027" :=
  (C9_award_id_extraction "t0" sampleRawTx9 "0001" rfl (by decide)
      (by decide) (by decide)).1
    "CONT_AWD_0001_9700_W52P1J13G0027_9700" "W52P1J13G0027" rfl (by decide)
    (by decide) (by decide) (by decide) (by decide)

/-- Evaluation of the deduplication on the C10 counterexample list in
insertion order: on a date tie the first-seen record is kept. -/
theorem dedupe_c10_eval1 :
    dedupeAwards [sampleAward (some "X") (some "A") "one",
      sampleAward (some "X") (some "A") "two"] =
      [sampleAward (some "X") (some "A") "one"] := by
  have h : ¬ ((['A'] : List Char) < ['A']) := lt_irrefl _
  simp [dedupeAwards, dedupeStep, mapGet, mapSet, dateKey, sampleAward, h]

/-- Evaluation of the deduplication on the C10 counterexample list in the
swapped order. -/
theorem dedupe_c10_eval2 :
    dedupeAwards [sampleAward (some "X") (some "A") "two",
      sampleAward (some "X") (some "A") "one"] =
      [sampleAward (some "X") (some "A") "two"] := by
  have h : ¬ ((['A'] : List Char) < ['A']) := lt_irrefl _
  simp [dedupeAwards, dedupeStep, mapGet, mapSet, dateKey, sampleAward, h]

/-- C10 counterexample: two distinct records share an `award_id` and an
equal `last_modified_date`; the deduplication keeps the first-seen record
(strict comparison), so permuting the list changes the retained set. -/
theorem C10_order_dependent_cex :
    ([sampleAward (some "X") (some "A") "one",
      sampleAward (some "X") (some "A") "two"].Perm
      [sampleAward (some "X") (some "A") "two",
        sampleAward (some "X") (some "A") "one"]) ∧
    sampleAward (some "X") (some "A") "one" ∈
      dedupeAwards [sampleAward (some "X") (some "A") "one",
        sampleAward (some "X") (some "A") "two"] ∧
    sampleAward (some "X") (some "A") "one" ∉
      dedupeAwards [sampleAward (some "X") (some "A") "two",
        sampleAward (some "X") (some "A") "one"] := by
  refine ⟨List.Perm.swap _ _ _, ?_, ?_⟩
  · rw [dedupe_c10_eval1]
    exact List.mem_singleton_self _
  · rw [dedupe_c10_eval2]
    intro hmem
    have h2 := List.mem_singleton.mp hmem
    exact absurd (congrArg Award.recipient_name h2) (by decide)

/-- C10 (amended): when no two distinct records of the list share both an
`award_id` and a (null-mapped) `last_modified_date`, the Stage 2
deduplication is order-independent: deduplicating any permutation of the
list retains the same set of records. -/
theorem C10_perm_invariant (l l1 : List Award) (hperm : l.Perm l1)
    (hdist : ∀ a ∈ l, ∀ b ∈ l, a.award_id = b.award_id →
      dateKey a = dateKey b → a = b) :
    ∀ x, x ∈ dedupeAwards l ↔ x ∈ dedupeAwards l1 := by
  intro x
  have hdist1 : ∀ a ∈ l1, ∀ b ∈ l1, a.award_id = b.award_id →
      dateKey a = dateKey b → a = b := by
    intro a ha b hb
    exact hdist a (hperm.mem_iff.mpr ha) b (hperm.mem_iff.mpr hb)
  rw [dedupeAwards_mem_char hdist x, dedupeAwards_mem_char hdist1 x]
  constructor
  · rintro ⟨hx, hdom⟩
    exact ⟨hperm.mem_iff.mp hx, fun s hs => hdom s (hperm.mem_iff.mpr hs)⟩
  · rintro ⟨hx, hdom⟩
    exact ⟨hperm.mem_iff.mpr hx, fun s hs => hdom s (hperm.mem_iff.mp hs)⟩

/-- Witness for the amended C10 on a two-element list whose duplicate group
has distinct date keys. -/
theorem C10_perm_invariant_witness :
    (sampleAward (some "X") (some "B") "two" ∈
      dedupeAwards [sampleAward (some "X") none "one",
        sampleAward (some "X") (some "B") "two"]) ↔
    sampleAward (some "X") (some "B") "two" ∈
      dedupeAwards [sampleAward (some "X") (some "B") "two",
        sampleAward (some "X") none "one"] :=
  C10_perm_invariant
    [sampleAward (some "X") none "one",
      sampleAward (some "X") (some "B") "two"]
    [sampleAward (some "X") (some "B") "two",
      sampleAward (some "X") none "one"]
    (List.Perm.swap _ _ _) (by decide)
    (sampleAward (some "X") (some "B") "two")

end UsaSpending
